import Mathlib

/-!
# Verification of the natural-language dispatch engine (`nonebot/natural_language.py`)

Shallow embedding of the module's data model and operations:

* `NLProcessor` / `NLProcessor.test` — the eligibility cascade of
  `NLProcessor.test` (source lines 30–63).  The handler `func` and the
  permission checker `perm_checker_func` are opaque async callables in the
  source; per dispatch their observable behaviour is a single value, so the
  embedding carries the permission answer (`Except PermErr Bool`, an error
  modelling a raised exception) and the handler outcome (`HandlerOutcome`)
  alongside each processor in a `ProcRun` record.
* `switch_set` / `NLPWorld` — the registry operations of `NLPManager`
  (source lines 76–145); Python object identity of processors is modelled by
  a natural-number id, the class-level set and the per-instance copies by a
  `NLPWorld` record.
* `collectIntents`, `sortByConfDesc`, `handle_natural_language` — the
  dispatch pipeline (source lines 188–243).  `await fut` in the collection
  loop returns results in the order futures were created, regardless of
  completion time, so `ProcRun.time` (the handler's completion time) is
  carried as data that the pipeline is free to ignore, exactly as the source
  ignores it.  Python's `list.sort(reverse=True)` is a stable descending
  sort, embedded as stable insertion sort `sortByConfDesc`.
* Confidence values (`float` in the source) are embedded as `ℚ`; the only
  operations used on them are order comparisons.
* Logging is external to the module and dropped from the embedding.
-/

/-- A Python exception raised by a permission checker, identified by a code. -/
abbrev PermErr := Nat

/-- Opaque argument bundle (`CommandArgs_T`): forwarded untouched. -/
abbrev CommandArgs_T := List (String × String)

/-- The per-dispatch view of an `NLPSession` (source lines 148–160): raw
message `msg`, derived plain-text transcript `msg_text`, the event's
`to_me` flag and the bot's `SHORT_MESSAGE_MAX_LENGTH` configuration. -/
structure NLPSession where
  msg : String
  msg_text : String
  to_me : Bool
  short_message_max_length : Nat
deriving DecidableEq, Repr

/-- Python's `sub in hay` on strings: `sub` occurs as a contiguous substring. -/
def strHasSub (hay sub : String) : Bool :=
  (List.range (hay.data.length + 1)).any (fun i => sub.data.isPrefixOf (hay.data.drop i))

/-- Declarative part of an `NLProcessor` (source lines 15–28).  `keywords`
is `Optional[Iterable[str]]`; the handler and permission checker are carried
per dispatch in `ProcRun`. -/
structure NLProcessor where
  keywords : Option (List String)
  only_to_me : Bool
  only_short_message : Bool
  allow_empty_message : Bool
deriving DecidableEq, Repr

/-- `NLProcessor.test` (source lines 30–63).  `perm` is the awaited answer
of `self._check_perm(session)` — `.error e` models the permission checker
raising; the cascade returns `.ok false` on rules 1–3 without consulting
`perm`.  `msg_text_length` is the optional cached transcript length. -/
def NLProcessor.test (p : NLProcessor) (perm : Except PermErr Bool)
    (s : NLPSession) (msg_text_length : Option Nat := none) : Except PermErr Bool :=
  let l := msg_text_length.getD s.msg_text.length
  if !p.allow_empty_message && s.msg.isEmpty then .ok false
  else if p.only_short_message && decide (s.short_message_max_length < l) then .ok false
  else if p.only_to_me && !s.to_me then .ok false
  else
    match perm with
    | .error e => .error e
    | .ok should_run =>
      .ok (if should_run && !(p.keywords.getD []).isEmpty then
             (p.keywords.getD []).any (fun kw => strHasSub s.msg_text kw)
           else should_run)

/-- Python truthiness of an `Optional[bool]`: `None` and `False` are falsy. -/
def pyTruthy : Option Bool → Bool
  | none => false
  | some b => b

/-- Body shared by `NLPManager.switch_nlprocessor_global` (source lines
109–127) and `NLPManager.switch_nlprocessor` (source lines 129–145): both
run the same two-branch statement against their respective set.  The first
guard is `processor in set and not state`, the second
`processor not in set and state is not False`; the fall-through returns
`None`. -/
def switch_set (procs : Finset Nat) (processor : Nat) (state : Option Bool) :
    Finset Nat × Option Bool :=
  if processor ∈ procs ∧ pyTruthy state = false then (procs.erase processor, some true)
  else if processor ∉ procs ∧ state ≠ some false then (insert processor procs, some false)
  else (procs, none)

/-- The registry state of the process: `NLPManager._nl_processors` (the
class-level set, source line 77) plus the `nl_processors` working set of
every `NLPManager` instance constructed so far. -/
structure NLPWorld where
  global : Finset Nat
  instances : List (Finset Nat)
deriving DecidableEq

/-- `NLPManager.__init__` (source lines 79–80): the new instance's working
set is a copy of the class-level set taken now. -/
def NLPWorld.newManager (w : NLPWorld) : NLPWorld :=
  { w with instances := w.instances ++ [w.global] }

/-- `NLPManager.add_nl_processor` (source lines 82–92): duplicate
registration only warns and leaves the set unchanged. -/
def NLPWorld.add_nl_processor (w : NLPWorld) (p : Nat) : NLPWorld :=
  if p ∈ w.global then w else { w with global := insert p w.global }

/-- `NLPManager.remove_nl_processor` (source lines 94–107). -/
def NLPWorld.remove_nl_processor (w : NLPWorld) (p : Nat) : NLPWorld × Bool :=
  if p ∈ w.global then ({ w with global := w.global.erase p }, true) else (w, false)

/-- `NLPManager.switch_nlprocessor_global` (source lines 109–127): runs
`switch_set` against the class-level set. -/
def NLPWorld.switch_nlprocessor_global (w : NLPWorld) (p : Nat) (st : Option Bool) :
    NLPWorld × Option Bool :=
  let r := switch_set w.global p st
  ({ w with global := r.1 }, r.2)

/-- `NLPManager.switch_nlprocessor` (source lines 129–145) on the `i`-th
constructed instance: runs `switch_set` against that instance's working set
only. -/
def NLPWorld.switch_nlprocessor (w : NLPWorld) (i : Nat) (p : Nat) (st : Option Bool) :
    NLPWorld × Option Bool :=
  match w.instances.get? i with
  | none => (w, none)
  | some s =>
    let r := switch_set s p st
    ({ w with instances := w.instances.set i r.1 }, r.2)

/-- `NLPResult` (source lines 163–175), the deprecated result shape. -/
structure NLPResult where
  confidence : ℚ
  cmd_name : String
  cmd_args : Option CommandArgs_T := none
deriving DecidableEq, Repr

/-- `IntentCommand` (source lines 178–185); `current_arg` defaults to `''`. -/
structure IntentCommand where
  confidence : ℚ
  name : String
  args : Option CommandArgs_T := none
  current_arg : String := ""
deriving DecidableEq, Repr

/-- `NLPResult.to_intent_command` (source lines 172–175): the keyword call
omits `current_arg`, so it takes the `''` default. -/
def NLPResult.to_intent_command (r : NLPResult) : IntentCommand :=
  { confidence := r.confidence, name := r.cmd_name, args := r.cmd_args }

/-- What awaiting one handler future yields (source lines 216–221): the
await raises, or returns `None`, a legacy `NLPResult`, an `IntentCommand`,
or a value of any other type. -/
inductive HandlerOutcome where
  | raised
  | retNone
  | retLegacy (r : NLPResult)
  | retIntent (c : IntentCommand)
  | retOther
deriving DecidableEq, Repr

instance {ε α : Type} [DecidableEq ε] [DecidableEq α] : DecidableEq (Except ε α) := fun a b =>
  match a, b with
  | .ok x, .ok y =>
    if h : x = y then .isTrue (by rw [h]) else .isFalse (fun he => by cases he; exact h rfl)
  | .error x, .error y =>
    if h : x = y then .isTrue (by rw [h]) else .isFalse (fun he => by cases he; exact h rfl)
  | .ok _, .error _ => .isFalse (fun he => by cases he)
  | .error _, .ok _ => .isFalse (fun he => by cases he)

/-- One processor as it participates in one dispatch: its declarative
rules, its permission checker's answer for this session, its handler's
outcome, and the wall-clock completion time of that handler (data the
collection loop never looks at, since `await fut` is issued in future
creation order). -/
structure ProcRun where
  proc : NLProcessor
  perm : Except PermErr Bool
  outcome : HandlerOutcome
  time : Nat
deriving DecidableEq, Repr

/-- The selection loop of `handle_natural_language` (source lines 206–210):
test each processor in iteration order with the precomputed transcript
length; an exception from a test propagates immediately. -/
def selectEligible (s : NLPSession) : List ProcRun → Except PermErr (List ProcRun)
  | [] => .ok []
  | pr :: prs =>
    match NLProcessor.test pr.proc pr.perm s (some s.msg_text.length) with
    | .error e => .error e
    | .ok should_run =>
      match selectEligible s prs with
      | .error e => .error e
      | .ok rest => .ok (if should_run then pr :: rest else rest)

/-- The collection loop (source lines 214–225): futures are awaited in list
order; a raising future is logged and skipped, an `NLPResult` is converted,
an `IntentCommand` kept, anything else dropped. -/
def collectIntents : List HandlerOutcome → List IntentCommand
  | [] => []
  | .raised :: os => collectIntents os
  | .retNone :: os => collectIntents os
  | .retLegacy r :: os => r.to_intent_command :: collectIntents os
  | .retIntent c :: os => c :: collectIntents os
  | .retOther :: os => collectIntents os

/-- Stable insertion into a descending-by-confidence list: the new element
(earlier in the original list) goes before the first element whose
confidence does not exceed it. -/
def insertByConfDesc (c : IntentCommand) : List IntentCommand → List IntentCommand
  | [] => [c]
  | d :: ds =>
    if d.confidence ≤ c.confidence then c :: d :: ds else d :: insertByConfDesc c ds

/-- `intent_commands.sort(key=lambda ic: ic.confidence, reverse=True)`
(source line 227): stable sort, descending by confidence. -/
def sortByConfDesc : List IntentCommand → List IntentCommand
  | [] => []
  | c :: cs => insertByConfDesc c (sortByConfDesc cs)

/-- The call made into the external command subsystem (source lines
235–240): `call_command(bot, event, name, args=…, current_arg=…,
check_perm=False)`. -/
structure CommandCall where
  name : String
  args : Option CommandArgs_T
  current_arg : String
  check_perm : Bool
deriving DecidableEq, Repr

/-- `handle_natural_language` (source lines 188–243).  `runs` lists the
working set's processors in iteration order together with their per-dispatch
behaviour; `call_command` is the opaque command subsystem.  The result
records the routing call made (if any) and the returned boolean; `.error`
models an uncaught exception escaping to the caller. -/
def handle_natural_language (s : NLPSession) (runs : List ProcRun)
    (call_command : CommandCall → Bool) : Except PermErr (Option CommandCall × Bool) :=
  match selectEligible s runs with
  | .error e => .error e
  | .ok futures =>
    if futures.isEmpty then .ok (none, false)
    else
      match sortByConfDesc (collectIntents (futures.map ProcRun.outcome)) with
      | [] => .ok (none, false)
      | top :: _ =>
        if (60 : ℚ) ≤ top.confidence then
          let call : CommandCall :=
            { name := top.name, args := top.args,
              current_arg := top.current_arg, check_perm := false }
          .ok (some call, call_command call)
        else .ok (none, false)

/-- The eligibility rules exactly as the specification words them (§4.2):
five rules in order, short-circuiting to ineligible at the first failing
rule, the permission predicate consulted only at rule 4, and rule 5
requiring some declared keyword to be a substring of the transcript when a
non-empty keyword set is declared.  Written for comparison against the
source-derived `NLProcessor.test`. -/
def testSpecRules (p : NLProcessor) (perm : Except PermErr Bool)
    (s : NLPSession) (len : Option Nat) : Except PermErr Bool :=
  let l := len.getD s.msg_text.length
  if !p.allow_empty_message && s.msg.isEmpty then .ok false
  else if p.only_short_message && decide (s.short_message_max_length < l) then .ok false
  else if p.only_to_me && !s.to_me then .ok false
  else
    match perm with
    | .error e => .error e
    | .ok false => .ok false
    | .ok true =>
      if !(p.keywords.getD []).isEmpty &&
         !((p.keywords.getD []).any (fun kw => strHasSub s.msg_text kw)) then .ok false
      else .ok true

/-- Rules 1–3 of the cascade reject the session before the permission
predicate is consulted. -/
def earlyReject (p : NLProcessor) (s : NLPSession) (len : Option Nat) : Bool :=
  let l := len.getD s.msg_text.length
  (!p.allow_empty_message && s.msg.isEmpty) ||
  (p.only_short_message && decide (s.short_message_max_length < l)) ||
  (p.only_to_me && !s.to_me)

/-- Per-result normalization table as the specification words it (§4.4 step
6, §9): a legacy result converts with the cursor defaulting to the empty
string, a `Proposal` passes unchanged, everything else (nothing, a raise,
any other type) contributes no proposal. -/
def normalizeResult : HandlerOutcome → Option IntentCommand
  | .retLegacy r =>
    some { confidence := r.confidence, name := r.cmd_name, args := r.cmd_args,
           current_arg := "" }
  | .retIntent c => some c
  | _ => none

/-- A processor with no restrictions: empty messages allowed, no keyword
set, no direct-address or short-message requirement. -/
def procOpen : NLProcessor :=
  { keywords := none, only_to_me := false, only_short_message := false,
    allow_empty_message := true }

/-- A concrete session used by the concrete witnesses. -/
def sessEx : NLPSession :=
  { msg := "hi", msg_text := "hi", to_me := true, short_message_max_length := 100 }

/-- Eligible processor whose handler proposed `cmdA` with confidence 75 and
completed at time 2. -/
def runA : ProcRun :=
  { proc := procOpen, perm := .ok true,
    outcome := .retIntent { confidence := 75, name := "cmdA" }, time := 2 }

/-- Eligible processor whose handler proposed `cmdB` with confidence 75 and
completed earlier, at time 1. -/
def runB : ProcRun :=
  { proc := procOpen, perm := .ok true,
    outcome := .retIntent { confidence := 75, name := "cmdB" }, time := 1 }

/-- Eligible processor whose handler proposed confidence exactly 60. -/
def run60 : ProcRun :=
  { proc := procOpen, perm := .ok true,
    outcome := .retIntent { confidence := 60, name := "c60" }, time := 0 }

/-- Eligible processor whose handler proposed confidence 59.999. -/
def run59999 : ProcRun :=
  { proc := procOpen, perm := .ok true,
    outcome := .retIntent { confidence := (59999 : ℚ)/1000, name := "c59" }, time := 0 }

/-- Eligible processor whose handler raised. -/
def runFault : ProcRun :=
  { proc := procOpen, perm := .ok true, outcome := .raised, time := 0 }

/-- Eligible processor whose handler proposed `cmdOk` with confidence 70. -/
def runOk70 : ProcRun :=
  { proc := procOpen, perm := .ok true,
    outcome := .retIntent { confidence := 70, name := "cmdOk" }, time := 1 }

lemma mem_insertByConfDesc {x c : IntentCommand} {l : List IntentCommand} :
    x ∈ insertByConfDesc c l ↔ x = c ∨ x ∈ l := by
  induction l with
  | nil => simp [insertByConfDesc]
  | cons d ds ih =>
    by_cases h : d.confidence ≤ c.confidence
    · simp [insertByConfDesc, h]
    · simp [insertByConfDesc, h, ih]
      tauto

lemma mem_sortByConfDesc {x : IntentCommand} {l : List IntentCommand} :
    x ∈ sortByConfDesc l ↔ x ∈ l := by
  induction l with
  | nil => simp [sortByConfDesc]
  | cons c cs ih => simp [sortByConfDesc, mem_insertByConfDesc, ih]

lemma insertByConfDesc_ne_nil (c : IntentCommand) (l : List IntentCommand) :
    insertByConfDesc c l ≠ [] := by
  cases l with
  | nil => simp [insertByConfDesc]
  | cons d ds =>
    by_cases h : d.confidence ≤ c.confidence <;> simp [insertByConfDesc, h]

lemma sortByConfDesc_eq_nil_iff {l : List IntentCommand} :
    sortByConfDesc l = [] ↔ l = [] := by
  cases l with
  | nil => simp [sortByConfDesc]
  | cons c cs => simp [sortByConfDesc, insertByConfDesc_ne_nil]

lemma sortByConfDesc_head_max :
    ∀ (l : List IntentCommand) (p : IntentCommand) (rest : List IntentCommand),
      sortByConfDesc l = p :: rest → ∀ q ∈ l, q.confidence ≤ p.confidence := by
  intro l
  induction l with
  | nil => intro p rest h; simp [sortByConfDesc] at h
  | cons c cs ih =>
    intro p rest h q hq
    rw [sortByConfDesc] at h
    rcases hcs : sortByConfDesc cs with _ | ⟨d, ds⟩
    · rw [hcs] at h
      simp [insertByConfDesc] at h
      rcases List.mem_cons.mp hq with rfl | hq
      · simp [h.1]
      · exfalso
        have hmem : q ∈ sortByConfDesc cs := mem_sortByConfDesc.mpr hq
        rw [hcs] at hmem
        simp at hmem
    · rw [hcs] at h
      by_cases hdc : d.confidence ≤ c.confidence
      · rw [insertByConfDesc, if_pos hdc] at h
        have hcp : c = p := (List.cons.inj h).1
        subst hcp
        rcases List.mem_cons.mp hq with rfl | hq
        · exact le_refl _
        · exact le_trans (ih d ds hcs q hq) hdc
      · rw [insertByConfDesc, if_neg hdc] at h
        have hdp : d = p := (List.cons.inj h).1
        subst hdp
        rcases List.mem_cons.mp hq with rfl | hq
        · exact le_of_not_le hdc
        · exact ih d ds hcs q hq

/-- Processor that refuses empty messages but has no other restriction. -/
def procNoEmpty : NLProcessor :=
  { keywords := none, only_to_me := false, only_short_message := false,
    allow_empty_message := false }

/-- A session whose raw message is empty. -/
def sessEmpty : NLPSession :=
  { msg := "", msg_text := "", to_me := false, short_message_max_length := 0 }

/-- `procNoEmpty` participating in a dispatch (handler would return nothing). -/
def runNoEmpty : ProcRun :=
  { proc := procNoEmpty, perm := .ok true, outcome := .retNone, time := 0 }

/-- An unrestricted processor participating in a dispatch of the empty message. -/
def runOpenEmpty : ProcRun :=
  { proc := procOpen, perm := .ok true, outcome := .retNone, time := 0 }

/-- Processor whose permission checker raises exception 5. -/
def runPermErr : ProcRun :=
  { proc := procOpen, perm := .error 5, outcome := .retNone, time := 0 }


lemma test_empty_false (p : NLProcessor) (perm : Except PermErr Bool) (s : NLPSession)
    (len : Option Nat) (hp : p.allow_empty_message = false) (hs : s.msg = "") :
    NLProcessor.test p perm s len = .ok false := by
  simp only [NLProcessor.test]
  rw [hp, hs]
  rfl

lemma selectEligible_mem_test (s : NLPSession) :
    ∀ (runs futs : List ProcRun), selectEligible s runs = .ok futs →
      ∀ r ∈ futs, NLProcessor.test r.proc r.perm s (some s.msg_text.length) = .ok true := by
  intro runs
  induction runs with
  | nil =>
    intro futs hsel r hr
    simp only [selectEligible] at hsel
    cases hsel
    simp at hr
  | cons r0 rs ih =>
    intro futs hsel r hr
    simp only [selectEligible] at hsel
    cases htest : NLProcessor.test r0.proc r0.perm s (some s.msg_text.length) with
    | error e => rw [htest] at hsel; cases hsel
    | ok b =>
      rw [htest] at hsel
      cases hrest : selectEligible s rs with
      | error e => rw [hrest] at hsel; cases hsel
      | ok rest =>
        rw [hrest] at hsel
        cases b with
        | false =>
          simp at hsel
          subst hsel
          exact ih rest hrest r hr
        | true =>
          simp at hsel
          subst hsel
          rcases List.mem_cons.mp hr with rfl | hr2
          · exact htest
          · exact ih rest hrest r hr2

/-- C4: for every processor and session, `test` evaluates exactly the five
rules in the spec's order, short-circuiting to false at the first failing
rule (the `testSpecRules` cascade written from the spec's wording), and
when one of rules 1–3 fails the result does not depend on the permission
predicate at all — the predicate is not consulted. -/
theorem C4_test_rule_cascade :
    ∀ (p : NLProcessor) (perm : Except PermErr Bool) (s : NLPSession) (len : Option Nat),
      NLProcessor.test p perm s len = testSpecRules p perm s len ∧
      (earlyReject p s len = true →
        ∀ perm2, NLProcessor.test p perm s len = NLProcessor.test p perm2 s len) := by
  intro p perm s len
  constructor
  · cases hae : p.allow_empty_message <;>
      cases hme : s.msg.isEmpty <;>
        cases hsm : p.only_short_message <;>
          cases htm : p.only_to_me <;>
            cases hto : s.to_me <;>
              rcases perm with e | (_ | _) <;>
                by_cases hlt : s.short_message_max_length < len.getD s.msg_text.length <;>
                  by_cases hk : (p.keywords.getD []).isEmpty = true <;>
                    by_cases ha :
                        ((p.keywords.getD []).any fun kw => strHasSub s.msg_text kw) = true <;>
                      simp [NLProcessor.test, testSpecRules, hae, hme, hsm, htm, hto, hlt, hk, ha]
  · intro h perm2
    cases hae : p.allow_empty_message <;>
      cases hme : s.msg.isEmpty <;>
        cases hsm : p.only_short_message <;>
          cases htm : p.only_to_me <;>
            cases hto : s.to_me <;>
              by_cases hlt : s.short_message_max_length < len.getD s.msg_text.length <;>
                simp_all [NLProcessor.test, earlyReject]

/-- C4 witness: a session passing the early rules agrees with the spec
cascade, and a processor early-rejected by rule 1 gives the same answer
whether its permission checker answers true or raises. -/
theorem C4_test_rule_cascade_witness :
    NLProcessor.test procOpen (.ok true) sessEx none =
      testSpecRules procOpen (.ok true) sessEx none ∧
    NLProcessor.test procNoEmpty (.ok true) sessEmpty none =
      NLProcessor.test procNoEmpty (.error 7) sessEmpty none :=
  ⟨(C4_test_rule_cascade procOpen (.ok true) sessEx none).1,
   (C4_test_rule_cascade procNoEmpty (.ok true) sessEmpty none).2 (by decide) (.error 7)⟩

/-- C9: passing the precomputed transcript length yields the same boolean
as letting `test` compute the length itself — the cache is purely an
optimization — and, the permission answer held fixed, `test` is a pure
function of its arguments, so repeated calls agree. -/
theorem C9_cached_length_equivalent :
    ∀ (p : NLProcessor) (perm : Except PermErr Bool) (s : NLPSession) (n1 n2 : Option Nat),
      (n1 = some s.msg_text.length ∨ n1 = none) →
      (n2 = some s.msg_text.length ∨ n2 = none) →
      NLProcessor.test p perm s n1 = NLProcessor.test p perm s n2 := by
  intro p perm s n1 n2 h1 h2
  rcases h1 with rfl | rfl <;> rcases h2 with rfl | rfl <;> rfl

/-- C9 witness: cached and fresh length computation agree on a concrete
processor and session. -/
theorem C9_cached_length_equivalent_witness :
    NLProcessor.test procOpen (.ok true) sessEx (some sessEx.msg_text.length) =
      NLProcessor.test procOpen (.ok true) sessEx none :=
  C9_cached_length_equivalent procOpen (.ok true) sessEx
    (some sessEx.msg_text.length) none (Or.inl rfl) (Or.inr rfl)

/-- C5: a processor with `allow_empty_message = False` tests false on every
session whose raw message is empty, whatever its other flags, keywords and
permission answer; consequently the selection loop of
`handle_natural_language` only ever creates handler futures for processors
that allow empty messages — such a processor's handler is never invoked. -/
theorem C5_empty_message_guard :
    (∀ (p : NLProcessor) (perm : Except PermErr Bool) (s : NLPSession) (len : Option Nat),
      p.allow_empty_message = false → s.msg = "" →
      NLProcessor.test p perm s len = .ok false) ∧
    (∀ (s : NLPSession) (runs futs : List ProcRun),
      s.msg = "" → selectEligible s runs = .ok futs →
      ∀ r ∈ futs, r.proc.allow_empty_message = true) := by
  constructor
  · exact test_empty_false
  · intro s runs futs hmsg hsel r hr
    have ht := selectEligible_mem_test s runs futs hsel r hr
    cases hval : r.proc.allow_empty_message with
    | true => rfl
    | false =>
      have hf := test_empty_false r.proc r.perm s (some s.msg_text.length) hval hmsg
      rw [ht] at hf
      simp at hf

/-- C5 witness: on the empty message, `procNoEmpty` tests false, and the
selection loop keeps only the processor that allows empty messages. -/
theorem C5_empty_message_guard_witness :
    NLProcessor.test procNoEmpty (.ok true) sessEmpty none = .ok false ∧
    ∀ r ∈ [runOpenEmpty], r.proc.allow_empty_message = true :=
  ⟨C5_empty_message_guard.1 procNoEmpty (.ok true) sessEmpty none rfl rfl,
   C5_empty_message_guard.2 sessEmpty [runNoEmpty, runOpenEmpty] [runOpenEmpty] rfl rfl⟩

/-- C10: the collection loop normalizes each awaited handler result into at
most one proposal exactly as the per-case table `normalizeResult` states —
legacy results convert with the cursor defaulting to the empty string, a
proposal passes unchanged, `None`, any other value, and a raising handler
contribute nothing — so only canonical `IntentCommand` values reach the
ranking step. -/
theorem C10_result_normalization :
    (∀ os : List HandlerOutcome, collectIntents os = os.filterMap normalizeResult) ∧
    (∀ r : NLPResult, r.to_intent_command =
      { confidence := r.confidence, name := r.cmd_name, args := r.cmd_args,
        current_arg := "" }) := by
  constructor
  · intro os
    induction os with
    | nil => rfl
    | cons o os ih =>
      cases o <;> simp [collectIntents, normalizeResult, List.filterMap_cons, ih,
        NLPResult.to_intent_command]
  · intro r
    rfl

lemma pyTruthy_eq_false {st : Option Bool} (h : st ≠ some true) : pyTruthy st = false := by
  cases st with
  | none => rfl
  | some b =>
    cases b with
    | false => rfl
    | true => exact absurd rfl h

lemma get?_set_ne {α : Type} (l : List α) (i j : Nat) (a : α) (h : j ≠ i) :
    (l.set i a).get? j = l.get? j := by
  induction l generalizing i j with
  | nil => simp
  | cons x xs ih =>
    cases i with
    | zero =>
      cases j with
      | zero => exact absurd rfl h
      | succ j2 => simp [List.set]
    | succ i2 =>
      cases j with
      | zero => simp [List.set]
      | succ j2 => simpa [List.set] using ih i2 j2 (fun he => h (by rw [he]))

/-- C7: the toggle body shared by the process-wide and the per-instance
operation follows the spec's state table: present + desired state false or
omitted → removed, removal reported; absent + desired state true or
omitted → added, addition reported; present + true or absent + false →
set unchanged, no action reported. -/
theorem C7_toggle_state_table :
    ∀ (procs : Finset Nat) (p : Nat) (st : Option Bool),
      (p ∈ procs → st ≠ some true → switch_set procs p st = (procs.erase p, some true)) ∧
      (p ∉ procs → st ≠ some false → switch_set procs p st = (insert p procs, some false)) ∧
      (p ∈ procs → st = some true → switch_set procs p st = (procs, none)) ∧
      (p ∉ procs → st = some false → switch_set procs p st = (procs, none)) := by
  intro procs p st
  refine ⟨?_, ?_, ?_, ?_⟩
  · intro hp hst
    simp [switch_set, hp, pyTruthy_eq_false hst]
  · intro hp hst
    simp [switch_set, hp, hst]
  · intro hp hst
    subst hst
    simp [switch_set, hp, pyTruthy]
  · intro hp hst
    subst hst
    simp [switch_set, hp, pyTruthy]

/-- C7 witness: the four rows of the state table, each exercised on a
concrete set and desired state. -/
theorem C7_toggle_state_table_witness :
    switch_set {1} 1 none = (({1} : Finset Nat).erase 1, some true) ∧
    switch_set (∅ : Finset Nat) 1 none = (insert 1 ∅, some false) ∧
    switch_set {1} 1 (some true) = ({1}, none) ∧
    switch_set (∅ : Finset Nat) 1 (some false) = (∅, none) :=
  ⟨(C7_toggle_state_table {1} 1 none).1 (by decide) (by decide),
   (C7_toggle_state_table ∅ 1 none).2.1 (by decide) (by decide),
   (C7_toggle_state_table {1} 1 (some true)).2.2.1 (by decide) rfl,
   (C7_toggle_state_table ∅ 1 (some false)).2.2.2 (by decide) rfl⟩

/-- C8: a newly constructed manager snapshots the process-wide set;
toggling on one instance changes neither the process-wide set nor any
other instance's working set; and registering, unregistering or globally
toggling never touches an existing instance's working set. -/
theorem C8_snapshot_isolation :
    (∀ w : NLPWorld, w.newManager.global = w.global ∧
       w.newManager.instances = w.instances ++ [w.global]) ∧
    (∀ (w : NLPWorld) (i p : Nat) (st : Option Bool),
       (w.switch_nlprocessor i p st).1.global = w.global ∧
       ∀ j, j ≠ i →
         (w.switch_nlprocessor i p st).1.instances.get? j = w.instances.get? j) ∧
    (∀ (w : NLPWorld) (p : Nat) (st : Option Bool),
       (w.add_nl_processor p).instances = w.instances ∧
       (w.remove_nl_processor p).1.instances = w.instances ∧
       (w.switch_nlprocessor_global p st).1.instances = w.instances) := by
  refine ⟨fun w => ⟨rfl, rfl⟩, ?_, ?_⟩
  · intro w i p st
    constructor
    · simp only [NLPWorld.switch_nlprocessor]
      cases hget : w.instances.get? i <;> rfl
    · intro j hj
      simp only [NLPWorld.switch_nlprocessor]
      cases hget : w.instances.get? i with
      | none => rfl
      | some si => exact get?_set_ne _ _ _ _ hj
  · intro w p st
    refine ⟨?_, ?_, rfl⟩
    · simp only [NLPWorld.add_nl_processor]
      split <;> rfl
    · simp only [NLPWorld.remove_nl_processor]
      split <;> rfl

/-- A concrete registry state: two registered processors, two constructed
manager instances whose working sets have diverged. -/
def w0 : NLPWorld := { global := {1, 2}, instances := [{1, 2}, {1}] }

/-- C8 witness: on `w0`, construction snapshots the global set, toggling
instance 0 leaves the global set and instance 1 untouched, and a global
toggle leaves the instances untouched. -/
theorem C8_snapshot_isolation_witness :
    w0.newManager.instances = w0.instances ++ [w0.global] ∧
    (w0.switch_nlprocessor 0 1 none).1.global = w0.global ∧
    (w0.switch_nlprocessor 0 1 none).1.instances.get? 1 = w0.instances.get? 1 ∧
    (w0.switch_nlprocessor_global 1 none).1.instances = w0.instances :=
  ⟨(C8_snapshot_isolation.1 w0).2,
   (C8_snapshot_isolation.2.1 w0 0 1 none).1,
   (C8_snapshot_isolation.2.1 w0 0 1 none).2 1 (by decide),
   (C8_snapshot_isolation.2.2 w0 1 none).2.2⟩

lemma handle_char_nil (s : NLPSession) (runs : List ProcRun) (cc : CommandCall → Bool)
    (futs : List ProcRun) (h : selectEligible s runs = .ok futs)
    (hnil : sortByConfDesc (collectIntents (futs.map ProcRun.outcome)) = []) :
    handle_natural_language s runs cc = .ok (none, false) := by
  cases futs with
  | nil => simp [handle_natural_language, h]
  | cons f fs =>
    rw [List.map_cons] at hnil
    simp [handle_natural_language, h, hnil]

lemma handle_char_cons (s : NLPSession) (runs : List ProcRun) (cc : CommandCall → Bool)
    (futs : List ProcRun) (top : IntentCommand) (rest : List IntentCommand)
    (h : selectEligible s runs = .ok futs)
    (hcons : sortByConfDesc (collectIntents (futs.map ProcRun.outcome)) = top :: rest) :
    handle_natural_language s runs cc =
      if (60 : ℚ) ≤ top.confidence then
        .ok (some { name := top.name, args := top.args, current_arg := top.current_arg,
                    check_perm := false },
             cc { name := top.name, args := top.args, current_arg := top.current_arg,
                  check_perm := false })
      else .ok (none, false) := by
  cases futs with
  | nil => exact absurd hcons (by simp [collectIntents, sortByConfDesc])
  | cons f fs =>
    rw [List.map_cons] at hcons
    simp [handle_natural_language, h, hcons]

/-- C2: routing happens exactly when at least one proposal was collected
and the highest confidence reaches 60 (inclusive threshold); the routed
call forwards the top proposal's command name, argument bundle and
argument cursor with the permission re-check disabled, and the command
subsystem's boolean becomes the dispatch result; otherwise dispatch
returns false and makes no routing call. -/
theorem C2_threshold_routing :
    ∀ (s : NLPSession) (runs : List ProcRun) (cc : CommandCall → Bool) (futs : List ProcRun),
      selectEligible s runs = .ok futs →
      (((∃ call b, handle_natural_language s runs cc = .ok (some call, b)) ↔
         ∃ p ∈ collectIntents (futs.map ProcRun.outcome), (60 : ℚ) ≤ p.confidence) ∧
       (∀ call b, handle_natural_language s runs cc = .ok (some call, b) →
         ∃ p ∈ collectIntents (futs.map ProcRun.outcome),
           (60 : ℚ) ≤ p.confidence ∧
           (∀ q ∈ collectIntents (futs.map ProcRun.outcome), q.confidence ≤ p.confidence) ∧
           call = { name := p.name, args := p.args, current_arg := p.current_arg,
                    check_perm := false } ∧
           b = cc call) ∧
       ((¬ ∃ p ∈ collectIntents (futs.map ProcRun.outcome), (60 : ℚ) ≤ p.confidence) →
         handle_natural_language s runs cc = .ok (none, false))) := by
  intro s runs cc futs h
  cases hs : sortByConfDesc (collectIntents (futs.map ProcRun.outcome)) with
  | nil =>
    have hnil : collectIntents (futs.map ProcRun.outcome) = [] :=
      sortByConfDesc_eq_nil_iff.mp hs
    rw [handle_char_nil s runs cc futs h hs, hnil]
    refine ⟨⟨?_, ?_⟩, ?_, fun _ => rfl⟩
    · rintro ⟨call, b, hcb⟩
      simp at hcb
    · rintro ⟨p, hp, _⟩
      simp at hp
    · intro call b hcb
      simp at hcb
  | cons top rest =>
    have htopmem : top ∈ collectIntents (futs.map ProcRun.outcome) :=
      mem_sortByConfDesc.mp (by rw [hs]; exact List.mem_cons_self top rest)
    have hmax := sortByConfDesc_head_max (collectIntents (futs.map ProcRun.outcome)) top rest hs
    rw [handle_char_cons s runs cc futs top rest h hs]
    by_cases hthr : (60 : ℚ) ≤ top.confidence
    · rw [if_pos hthr]
      refine ⟨⟨fun _ => ⟨top, htopmem, hthr⟩, fun _ => ⟨_, _, rfl⟩⟩, ?_, ?_⟩
      · intro call b hcb
        simp only [Except.ok.injEq, Prod.mk.injEq, Option.some.injEq] at hcb
        obtain ⟨hcall, hb⟩ := hcb
        subst hcall
        subst hb
        exact ⟨top, htopmem, hthr, hmax, rfl, rfl⟩
      · intro hno
        exact absurd ⟨top, htopmem, hthr⟩ hno
    · rw [if_neg hthr]
      refine ⟨⟨?_, ?_⟩, ?_, fun _ => rfl⟩
      · rintro ⟨call, b, hcb⟩
        simp at hcb
      · rintro ⟨p, hp, h60⟩
        exact absurd (le_trans h60 (hmax p hp)) hthr
      · intro call b hcb
        simp at hcb

/-- C2 witness: a single collected proposal of confidence exactly 60 is
routed (the threshold is inclusive); one of confidence 59.999 is not, and
dispatch returns false with no routing call. -/
theorem C2_threshold_routing_witness :
    (∃ call b, handle_natural_language sessEx [run60] (fun _ => true) = .ok (some call, b)) ∧
    handle_natural_language sessEx [run59999] (fun _ => true) = .ok (none, false) :=
  ⟨(C2_threshold_routing sessEx [run60] (fun _ => true) [run60] rfl).1.mpr
     ⟨{ confidence := 60, name := "c60" }, by simp [collectIntents, run60], by norm_num⟩,
   (C2_threshold_routing sessEx [run59999] (fun _ => true) [run59999] rfl).2.2
     (by rintro ⟨p, hp, h60⟩
         simp [collectIntents, run59999] at hp
         subst hp
         norm_num at h60)⟩

/-- C3: a raising handler is isolated — with a faulting first handler and a
second eligible handler proposing confidence 70, dispatch still routes the
second handler's command, returns the command subsystem's boolean, and no
exception escapes to the caller. -/
theorem C3_handler_fault_isolated :
    ∀ (s : NLPSession) (f g : ProcRun) (c : IntentCommand) (cc : CommandCall → Bool),
      NLProcessor.test f.proc f.perm s (some s.msg_text.length) = .ok true →
      NLProcessor.test g.proc g.perm s (some s.msg_text.length) = .ok true →
      f.outcome = .raised → g.outcome = .retIntent c → c.confidence = 70 →
      handle_natural_language s [f, g] cc =
        .ok (some { name := c.name, args := c.args, current_arg := c.current_arg,
                    check_perm := false },
             cc { name := c.name, args := c.args, current_arg := c.current_arg,
                  check_perm := false }) := by
  intro s f g c cc hf hg hof hog hconf
  have hsel : selectEligible s [f, g] = .ok [f, g] := by
    simp [selectEligible, hf, hg]
  have hsort : sortByConfDesc (collectIntents ([f, g].map ProcRun.outcome)) = [c] := by
    simp [hof, hog, collectIntents, sortByConfDesc, insertByConfDesc]
  rw [handle_char_cons s [f, g] cc [f, g] c [] hsel hsort, if_pos (by rw [hconf]; norm_num)]

/-- C3 witness: a dispatch with one raising handler and one handler
proposing `cmdOk` at confidence 70 reports handled with `cmdOk` routed. -/
theorem C3_handler_fault_isolated_witness :
    handle_natural_language sessEx [runFault, runOk70] (fun _ => true) =
      .ok (some { name := "cmdOk", args := none, current_arg := "", check_perm := false },
           true) :=
  C3_handler_fault_isolated sessEx runFault runOk70
    { confidence := 70, name := "cmdOk" } (fun _ => true) rfl rfl rfl rfl rfl

lemma selectEligible_error (s : NLPSession) :
    ∀ (pre : List ProcRun) (p : ProcRun) (post : List ProcRun) (e : PermErr),
      (∀ r ∈ pre, ∃ b, NLProcessor.test r.proc r.perm s (some s.msg_text.length) = .ok b) →
      NLProcessor.test p.proc p.perm s (some s.msg_text.length) = .error e →
      selectEligible s (pre ++ p :: post) = .error e := by
  intro pre
  induction pre with
  | nil =>
    intro p post e _ hp
    simp only [List.nil_append, selectEligible]
    rw [hp]
  | cons r rs ih =>
    intro p post e hpre hp
    obtain ⟨b, hb⟩ := hpre r (List.mem_cons_self r rs)
    simp only [List.cons_append, selectEligible, List.append_eq]
    rw [hb, ih p post e (fun x hx => hpre x (List.mem_cons_of_mem r hx)) hp]

/-- C6: if a permission predicate raises while a processor is being tested,
the exception escapes `handle_natural_language` unchanged: whatever
processors follow in iteration order, the result is that error — no
ranking result and no routing call is produced. -/
theorem C6_perm_fault_aborts_dispatch :
    ∀ (s : NLPSession) (pre : List ProcRun) (p : ProcRun) (post : List ProcRun)
      (e : PermErr) (cc : CommandCall → Bool),
      (∀ r ∈ pre, ∃ b, NLProcessor.test r.proc r.perm s (some s.msg_text.length) = .ok b) →
      NLProcessor.test p.proc p.perm s (some s.msg_text.length) = .error e →
      handle_natural_language s (pre ++ p :: post) cc = .error e := by
  intro s pre p post e cc hpre hp
  have hsel := selectEligible_error s pre p post e hpre hp
  simp [handle_natural_language, hsel]

/-- C6 witness: with a processor whose permission checker raises exception
5 placed between two healthy processors, dispatch aborts with that
exception. -/
theorem C6_perm_fault_aborts_dispatch_witness :
    handle_natural_language sessEx [runA, runPermErr, runB] (fun _ => true) = .error 5 :=
  C6_perm_fault_aborts_dispatch sessEx [runA] runPermErr [runB] 5 (fun _ => true)
    (by intro r hr
        simp at hr
        subst hr
        exact ⟨true, rfl⟩)
    rfl

/-- C1 counterexample: two eligible processors tie at confidence 75; the
second one's handler completes first (time 1 < 2), yet dispatch routes the
first-listed processor's command `cmdA`, not the earlier-completing
`cmdB` — results are gathered in future-creation order, so the claim that
the earliest-completing proposal wins the tie is false. -/
theorem C1_completion_order_counterexample :
    runB.time < runA.time ∧
    runA.outcome = .retIntent { confidence := 75, name := "cmdA" } ∧
    runB.outcome = .retIntent { confidence := 75, name := "cmdB" } ∧
    handle_natural_language sessEx [runA, runB] (fun _ => true) =
      .ok (some { name := "cmdA", args := none, current_arg := "", check_perm := false },
           true) ∧
    "cmdA" ≠ "cmdB" := by
  refine ⟨by decide, rfl, rfl, ?_, by decide⟩
  rfl

/-- C1 as amended: among proposals sharing the highest confidence, the one
whose processor comes first in the working set's iteration order is routed;
handler completion times are irrelevant, because `await fut` collects
results in the order the futures were created. -/
theorem C1_tie_prefers_iteration_order :
    ∀ (s : NLPSession) (a b : ProcRun) (ca cb : IntentCommand) (cc : CommandCall → Bool)
      (ta tb : Nat),
      NLProcessor.test a.proc a.perm s (some s.msg_text.length) = .ok true →
      NLProcessor.test b.proc b.perm s (some s.msg_text.length) = .ok true →
      a.outcome = .retIntent ca → b.outcome = .retIntent cb →
      ca.confidence = cb.confidence → (60 : ℚ) ≤ ca.confidence →
      handle_natural_language s [{ a with time := ta }, { b with time := tb }] cc =
        .ok (some { name := ca.name, args := ca.args, current_arg := ca.current_arg,
                    check_perm := false },
             cc { name := ca.name, args := ca.args, current_arg := ca.current_arg,
                  check_perm := false }) := by
  intro s a b ca cb cc ta tb ha hb hoa hob hconf hthr
  have hsel : selectEligible s [{ a with time := ta }, { b with time := tb }] =
      .ok [{ a with time := ta }, { b with time := tb }] := by
    simp [selectEligible, ha, hb]
  have hsort : sortByConfDesc (collectIntents
      ([{ a with time := ta }, { b with time := tb }].map ProcRun.outcome)) = [ca, cb] := by
    simp only [List.map_cons, List.map_nil]
    rw [show ({ a with time := ta } : ProcRun).outcome = a.outcome from rfl,
        show ({ b with time := tb } : ProcRun).outcome = b.outcome from rfl, hoa, hob]
    simp [collectIntents, sortByConfDesc, insertByConfDesc, hconf]
  rw [handle_char_cons s _ cc _ ca [cb] hsel hsort, if_pos hthr]

/-- C1 amended-claim witness: the concrete tie of the counterexample —
first-listed `cmdA` wins whatever the completion times are. -/
theorem C1_tie_prefers_iteration_order_witness :
    handle_natural_language sessEx [{ runA with time := 5 }, { runB with time := 0 }]
        (fun _ => true) =
      .ok (some { name := "cmdA", args := none, current_arg := "", check_perm := false },
           true) :=
  C1_tie_prefers_iteration_order sessEx runA runB
    { confidence := 75, name := "cmdA" } { confidence := 75, name := "cmdB" }
    (fun _ => true) 5 0 rfl rfl rfl rfl rfl (by norm_num)
